import Mathlib

/-!
Verification of the BM25 indexing and retrieval engine of this repository
(`python/bm25_index.py`): tokenization, index construction, persisted state,
incremental append-and-rebuild, and top-k scored retrieval.

The tokenizer and the persisted-state operations are translated directly from
the Python source.  Character classes are the ASCII restrictions of Python's
regex classes, on which they are complete, so the tokenizer model is exact on
ASCII text; Python's Unicode-only behaviour (non-ASCII word characters,
Unicode whitespace, one-to-two lowercase mappings) is outside the model's
domain, and the one universal tokenizer theorem is stated with an explicit
ASCII hypothesis.  All concrete corpora and queries below are ASCII.  Strings
are total values, so Python's `text or ""` guard against `None` is the
identity here.  The BM25 scoring function and the ascending argsort come from external
libraries (`rank_bm25`, `numpy`) whose sources are not part of this
repository; they are modelled from the specification, as marked on their
definitions.
-/

namespace BM25

/-- The whitespace class shared by Python's regex `\s`, `str.split()` and
`str.strip()`, restricted to ASCII, where it is complete: space, `\t`, `\n`,
`\r`, `\v`, `\f` and the separator characters `\x1c`-`\x1f`.  Unicode
whitespace lies outside the ASCII domain this model is faithful on. -/
def isSpaceChar (c : Char) : Bool :=
  c == ' ' || c == '\t' || c == '\n' || c == '\r' || c == '\x0b' || c == '\x0c' ||
    c == '\x1c' || c == '\x1d' || c == '\x1e' || c == '\x1f'

/-- The Python regex word class `\w` restricted to ASCII, where it is
complete: letters, digits and the underscore.  Python's `\w` additionally
matches Unicode word characters, outside the ASCII domain this model is
faithful on. -/
def isWordChar (c : Char) : Bool :=
  c.isAlphanum || c == '_'

/-- Scanner for `re.sub(r"http\S+", "", text)`.  In mode `false` it scans
normally; a match (the literal `http` followed by at least one non-whitespace
character) switches to mode `true`, which drops the maximal run of
non-whitespace characters before resuming the normal scan. -/
def stripHttpAux : Bool → List Char → List Char
  | _, [] => []
  | true, c :: rest =>
    if isSpaceChar c then c :: stripHttpAux false rest else stripHttpAux true rest
  | false, 'h' :: 't' :: 't' :: 'p' :: c :: rest =>
    if isSpaceChar c then 'h' :: 't' :: 't' :: 'p' :: stripHttpAux false (c :: rest)
    else stripHttpAux true rest
  | false, c :: rest => c :: stripHttpAux false rest

/-- `re.sub(r"http\S+", "", text)` of `preprocess_text`, step 1. -/
def stripHttp (cs : List Char) : List Char :=
  stripHttpAux false cs

/-- After `<@` and at least one word character: consume word characters until
a closing `>`; `some rest` is the remainder after a successful match. -/
def matchMentionGo : List Char → Option (List Char)
  | [] => none
  | c :: rest => if c = '>' then some rest else if isWordChar c then matchMentionGo rest else none

/-- Attempt to match `\w+>` (the part of `<@\w+>` after `<@`). -/
def matchMention : List Char → Option (List Char)
  | [] => none
  | c :: rest => if isWordChar c then matchMentionGo rest else none

/-- Fuelled scanner for `re.sub(r"<@\w+>", "", text)`.  A failed match at a
`<` emits the `<` and rescans from the following character, exactly as the
regex engine advances one position; fuel bounded by the list length is always
sufficient because every recursive call is on a strictly shorter list. -/
def stripMentionF : Nat → List Char → List Char
  | 0, cs => cs
  | _, [] => []
  | fuel + 1, c :: rest =>
    if c = '<' then
      match rest with
      | '@' :: rest2 =>
        match matchMention rest2 with
        | some rest3 => stripMentionF fuel rest3
        | none => c :: stripMentionF fuel rest
      | _ => c :: stripMentionF fuel rest
    else c :: stripMentionF fuel rest

/-- `re.sub(r"<@\w+>", "", text)` of `preprocess_text`, step 2. -/
def stripMention (cs : List Char) : List Char :=
  stripMentionF cs.length cs

/-- `re.sub(r"[^\w\s]", " ", text)` of `preprocess_text`, step 3. -/
def punctToSpace (cs : List Char) : List Char :=
  cs.map (fun c => if isWordChar c || isSpaceChar c then c else ' ')

/-- `text.lower()` of `preprocess_text`, step 4.  On ASCII text this agrees
exactly with Python's `str.lower()`; outside ASCII, Python's Unicode lowering
can even map one character to two (e.g. U+0130 to `i` plus U+0307), which a
character-to-character model cannot express. -/
def lowerChars (cs : List Char) : List Char :=
  cs.map Char.toLower

/-- `str.split()`: split on runs of whitespace, dropping empty pieces.  The
accumulator holds the reversed current token. -/
def splitWsAux : List Char → List Char → List (List Char)
  | acc, [] => if acc.isEmpty then [] else [acc.reverse]
  | acc, c :: rest =>
    if isSpaceChar c then
      if acc.isEmpty then splitWsAux [] rest else acc.reverse :: splitWsAux [] rest
    else splitWsAux (c :: acc) rest

/-- `text.split()` of `preprocess_text`, step 4. -/
def splitWs (cs : List Char) : List (List Char) :=
  splitWsAux [] cs

/-- Python `t.strip()`: remove leading and trailing whitespace. -/
def pyStrip (cs : List Char) : List Char :=
  ((cs.dropWhile isSpaceChar).reverse.dropWhile isSpaceChar).reverse

/-- The full tokenization pipeline of `preprocess_text` on character lists,
including the final `[t for t in tokens if t.strip()]` filter. -/
def tokensC (cs : List Char) : List (List Char) :=
  (splitWs (lowerChars (punctToSpace (stripMention (stripHttp cs))))).filter
    (fun t => !(pyStrip t).isEmpty)

/-- `preprocess_text(text)` from `bm25_index.py`.  A `None` input is treated
by the source as `""`, which is the empty string here. -/
def preprocess_text (s : String) : List String :=
  (tokensC s.data).map (fun t => String.mk t)

/-- Python's `" ".join(tokens)` on character lists. -/
def joinSep : List (List Char) → List Char
  | [] => []
  | [t] => t
  | t :: ts => t ++ ' ' :: joinSep ts

/-- Python's `" ".join(tokens)`: the whitespace-join of a token sequence. -/
def joinTokens (ts : List String) : String :=
  String.mk (joinSep (ts.map String.data))

/-- Does the list start with `http` followed by a non-whitespace character,
i.e. does the regex `http\S+` match at this position? -/
def startsHttp : List Char → Bool
  | 'h' :: 't' :: 't' :: 'p' :: c :: _ => !isSpaceChar c
  | _ => false

/-- Does `http\S+` match anywhere in the list? -/
def hasHttpMatch : List Char → Bool
  | [] => false
  | cs@(_ :: rest) => startsHttp cs || hasHttpMatch rest

/-- A document record of the corpus source, with exactly the keys read by
`build_index` and `add_documents`.  Absent keys are `none`; `mid` models the
`"_id"` key. -/
structure Msg where
  id : Option String
  text : Option String
  username : Option String
  channel : Option String
  thread_ts : Option String
  ts : Option String
  mid : Option String
deriving DecidableEq

/-- Python truthiness of an optional string (`None` and `""` are falsy). -/
def truthy : Option String → Bool
  | none => false
  | some s => !(s == "")

/-- The combined searchable text of a document:
`f"{msg.get('text','')} {msg.get('username','')} {msg.get('channel','')}"`,
with ` [threaded reply]` appended when `thread_ts` is truthy and differs from
`ts`. -/
def combinedText (m : Msg) : String :=
  let base := m.text.getD "" ++ " " ++ m.username.getD "" ++ " " ++ m.channel.getD ""
  if truthy m.thread_ts && !(m.thread_ts == m.ts) then base ++ " [threaded reply]" else base

/-- Tokenization of one document, as performed by both `build_index` and
`add_documents`. -/
def tokenizeMsg (m : Msg) : List String :=
  preprocess_text (combinedText m)

/-- The persisted index state.  The pickled `BM25Okapi` object is determined
by `(tokenized_corpus, k1, b)` (spec section 9: the tokenized corpus plus the
parameters are the source of truth for the scorer), so the stored blob is
modelled by exactly these fields plus the parallel id list.  Document ids may
be `None` in the source (`msg.get("id")`), hence `Option String`. -/
structure StoredIndex where
  doc_ids : List (Option String)
  tokenized_corpus : List (List String)
  k1 : ℚ
  b : ℚ
deriving DecidableEq

/-- The file system visible to the three operations: corpus JSON files and
pickled index files, each a partial map from paths. -/
structure FileSys where
  corpusFile : String → Option (List Msg)
  indexFile : String → Option StoredIndex

/-- The error raised by `build_index` (`FileNotFoundError`, named
`CorpusNotFound` by the spec). -/
inductive BuildErr
  | corpusNotFound
deriving DecidableEq

/-- Writing the pickled store to a path. -/
def setIndex (fs : FileSys) (path : String) (st : StoredIndex) : FileSys :=
  ⟨fs.corpusFile, fun p => if p = path then some st else fs.indexFile p⟩

/-- The pure state built by `build_index`: tokens and ids collected in the
same loop over the documents, plus the parameters baked into the scorer. -/
def buildStore (docs : List Msg) (k1 b : ℚ) : StoredIndex :=
  ⟨docs.map (fun m => m.id), docs.map tokenizeMsg, k1, b⟩

/-- `build_index(corpus_json_path, index_path, k1, b)`: raises when the corpus
path is missing, otherwise tokenizes every document, persists the store and
returns `(len(docs), len(doc_ids))`. -/
def build_index (fs : FileSys) (corpus_json_path index_path : String) (k1 b : ℚ) :
    Except BuildErr (FileSys × ℕ × ℕ) :=
  match fs.corpusFile corpus_json_path with
  | none => .error .corpusNotFound
  | some docs =>
    .ok (setIndex fs index_path (buildStore docs k1 b), docs.length,
      (docs.map (fun m => m.id)).length)

/-- Python `a or b` on optional strings: the first operand when truthy,
otherwise the second. -/
def pyOr (a fallback : Option String) : Option String :=
  if truthy a then a else fallback

/-- The id of a newly added document:
`msg.get("id") or msg.get("ts") or msg.get("_id")`. -/
def newDocId (m : Msg) : Option String :=
  pyOr m.id (pyOr m.ts m.mid)

/-- The pure state built by `add_documents`: the retained sequences (empty
when no store exists) extended in lockstep with the new documents, rebuilt
with the given parameters. -/
def addStore (old : Option StoredIndex) (docs : List Msg) (k1 b : ℚ) : StoredIndex :=
  let prevIds := (old.map (fun st => st.doc_ids)).getD []
  let prevCorpus := (old.map (fun st => st.tokenized_corpus)).getD []
  ⟨prevIds ++ docs.map newDocId, prevCorpus ++ docs.map tokenizeMsg, k1, b⟩

/-- `add_documents(index_path, docs, k1, b, rebuild_threshold)`.  The returned
`Bool` models the warning printed to stderr when no existing index is found;
the returned count is `len(new_ids)`. -/
def add_documents (fs : FileSys) (index_path : String) (docs : List Msg) (k1 b : ℚ)
    (rebuild_threshold : ℤ) : FileSys × ℕ × Bool :=
  let warned := (fs.indexFile index_path).isNone
  let st := addStore (fs.indexFile index_path) docs k1 b
  (setIndex fs index_path st, (docs.map newDocId).length, warned)

/-- Modelled from the spec: per-term document frequency (count of documents
containing the term at least once), a statistic of the external `rank_bm25`
scorer. -/
def docFreq (corpus : List (List String)) (t : String) : ℕ :=
  (corpus.filter (fun d => d.contains t)).length

/-- Modelled from the spec: raw count of a term in a document's token
sequence (`f(t,d)`). -/
def termFreq (d : List String) (t : String) : ℕ :=
  (d.filter (fun w => w == t)).length

/-- Modelled from the spec: corpus-wide mean token count; `0` for an empty
corpus so that operating on an empty corpus is total. -/
def avgdl (corpus : List (List String)) : ℚ :=
  if corpus.length = 0 then 0 else ((corpus.map List.length).sum : ℚ) / corpus.length

/-- Modelled from the spec: the smoothed, non-negative IDF of the Okapi BM25
scorer (spec section 4.3: the smoothing must make IDF non-negative, and a
query term with document frequency zero contributes zero).  The `rank_bm25`
library implementing the scorer is external to this repository's sources. -/
noncomputable def idf (corpus : List (List String)) (t : String) : ℝ :=
  if docFreq corpus t = 0 then 0
  else Real.log (1 + ((corpus.length : ℝ) - (docFreq corpus t : ℝ) + 1 / 2) /
    ((docFreq corpus t : ℝ) + 1 / 2))

/-- Modelled from the spec: the Okapi BM25 score of one document for a query,
`sum over distinct query terms of
IDF(t) * (f(t,d) * (k1 + 1)) / (f(t,d) + k1 * (1 - b + b * docLen / avgDocLen))`. -/
noncomputable def bm25Score (k1 b : ℚ) (corpus : List (List String)) (d : List String)
    (q : List String) : ℝ :=
  (q.dedup.map (fun t =>
    idf corpus t * ((termFreq d t : ℝ) * ((k1 : ℝ) + 1)) /
      ((termFreq d t : ℝ) + (k1 : ℝ) *
        (1 - (b : ℝ) + (b : ℝ) * (d.length : ℝ) / (avgdl corpus : ℝ))))).sum

/-- The ordering by which `np.argsort` arranges positions: ascending by
score, ties in ascending position order. -/
def idxLe (scores : List ℝ) (i j : ℕ) : Prop :=
  scores.getD i 0 < scores.getD j 0 ∨ (scores.getD i 0 = scores.getD j 0 ∧ i ≤ j)

noncomputable instance (scores : List ℝ) : DecidableRel (idxLe scores) :=
  fun i j => by unfold idxLe; infer_instance

/-- Modelled from the spec: `np.argsort(scores)` (numpy is external to this
repository's sources), as the deterministic permutation of positions that is
ascending by score with ties kept in their original ascending order. -/
noncomputable def argsortAsc (scores : List ℝ) : List ℕ :=
  (List.range scores.length).insertionSort (idxLe scores)

/-- Python list slicing `xs[-top_k:]` for an arbitrary integer `top_k`: the
last `top_k` elements when `top_k` is positive, all of `xs` when it is zero
(`-0` is `0`), and `xs[(-top_k):]` when it is negative. -/
def pySliceLast {α : Type} (top_k : ℤ) (xs : List α) : List α :=
  if 0 < top_k then xs.drop (xs.length - top_k.toNat) else xs.drop (-top_k).toNat

/-- The retrieval core of `search` on a loaded store, keeping the original
ordinal position of every returned document: score every document, take
`np.argsort(scores)[-top_k:][::-1]`, and keep the strictly positive scores in
that order. -/
noncomputable def searchIdxScore (st : StoredIndex) (query : String) (top_k : ℤ) :
    List (ℕ × ℝ) :=
  let q_tokens := preprocess_text query
  let scores := st.tokenized_corpus.map
    (fun d => bm25Score st.k1 st.b st.tokenized_corpus d q_tokens)
  let top_idx := (pySliceLast top_k (argsortAsc scores)).reverse
  top_idx.filterMap
    (fun i => if 0 < scores.getD i 0 then some (i, scores.getD i 0) else none)

/-- `search` on a loaded store: the `(doc_ids[idx], scores[idx])` pairs of the
retrieval core. -/
noncomputable def searchStore (st : StoredIndex) (query : String) (top_k : ℤ) :
    List (Option String × ℝ) :=
  (searchIdxScore st query top_k).map (fun p => (st.doc_ids.getD p.1 none, p.2))

/-- `search(index_path, query, top_k)`: a missing store yields the empty
result list. -/
noncomputable def search (fs : FileSys) (index_path query : String) (top_k : ℤ) :
    List (Option String × ℝ) :=
  match fs.indexFile index_path with
  | none => []
  | some st => searchStore st query top_k

lemma searchStore_empty_corpus (ids : List (Option String)) (k1 b : ℚ) (q : String)
    (tk : ℤ) : searchStore ⟨ids, [], k1, b⟩ q tk = [] := by
  simp [searchStore, searchIdxScore, argsortAsc, pySliceLast]

lemma search_setIndex (fs : FileSys) (p q : String) (st : StoredIndex) (tk : ℤ) :
    search (setIndex fs p st) p q tk = searchStore st q tk := by
  unfold search setIndex
  simp

/-- A one-document message used by several witnesses. -/
def msgCat : Msg :=
  ⟨some "1", some "the cat sat", none, none, none, none, none⟩

/-- A second message used by several witnesses. -/
def msgDog : Msg :=
  ⟨some "2", some "the dog ran", none, none, none, none, none⟩

/-- C10: `rebuild_threshold` is accepted and ignored: the whole result of
`add_documents` (new file system, count, warning) is independent of it. -/
theorem c10_rebuild_threshold_unused (fs : FileSys) (index_path : String) (docs : List Msg)
    (k1 b : ℚ) (t1 t2 : ℤ) :
    add_documents fs index_path docs k1 b t1 = add_documents fs index_path docs k1 b t2 :=
  rfl

/-- C5: building persists exactly the document-id sequence, the tokenized
corpus and the parameters that `build_index` computed, and loading the store
back yields exactly these fields. -/
theorem c5_build_load_roundtrip (fs : FileSys) (cpath ipath : String) (k1 b : ℚ)
    (docs : List Msg) (h : fs.corpusFile cpath = some docs) :
    ∃ fs2 : FileSys, build_index fs cpath ipath k1 b = .ok (fs2, docs.length, docs.length) ∧
      fs2.indexFile ipath = some ⟨docs.map (fun m => m.id), docs.map tokenizeMsg, k1, b⟩ := by
  refine ⟨setIndex fs ipath (buildStore docs k1 b), ?_, ?_⟩
  · unfold build_index
    rw [h]
    simp
  · simp [setIndex, buildStore]

/-- Witness for C5 at a one-document corpus file. -/
theorem c5_build_load_roundtrip_witness :
    ∃ fs2 : FileSys,
      build_index ⟨fun _ => some [msgCat], fun _ => none⟩ "c.json" "idx" (6 / 5) (3 / 4) =
        .ok (fs2, 1, 1) ∧
      fs2.indexFile "idx" = some ⟨[some "1"], [tokenizeMsg msgCat], 6 / 5, 3 / 4⟩ :=
  c5_build_load_roundtrip ⟨fun _ => some [msgCat], fun _ => none⟩ "c.json" "idx" (6 / 5)
    (3 / 4) [msgCat] rfl

/-- C6: the central parallel-sequence invariant.  `buildStore` produces the id
and token sequences by mapping the same document list position by position,
so they have equal length and `doc_ids[i]` belongs to `tokenizedCorpus[i]`;
`addStore` keeps the existing entries in order, appends the new entries at the
end of both sequences in lockstep, and preserves equality of lengths. -/
theorem c6_parallel_invariant (st : StoredIndex)
    (hlen : st.doc_ids.length = st.tokenized_corpus.length)
    (docs more : List Msg) (k1 b k1a ba : ℚ) :
    ((buildStore docs k1 b).doc_ids = docs.map (fun m => m.id) ∧
      (buildStore docs k1 b).tokenized_corpus = docs.map tokenizeMsg ∧
      (buildStore docs k1 b).doc_ids.length = (buildStore docs k1 b).tokenized_corpus.length) ∧
    ((addStore (some st) more k1a ba).doc_ids = st.doc_ids ++ more.map newDocId ∧
      (addStore (some st) more k1a ba).tokenized_corpus =
        st.tokenized_corpus ++ more.map tokenizeMsg ∧
      (addStore (some st) more k1a ba).doc_ids.length =
        (addStore (some st) more k1a ba).tokenized_corpus.length) := by
  refine ⟨⟨rfl, rfl, by simp [buildStore]⟩, rfl, rfl, ?_⟩
  simp [addStore, hlen]

/-- Witness for C6 at a concrete store and document list. -/
theorem c6_parallel_invariant_witness :
    ((buildStore [msgCat] 1 1).doc_ids = [msgCat].map (fun m => m.id) ∧
      (buildStore [msgCat] 1 1).tokenized_corpus = [msgCat].map tokenizeMsg ∧
      (buildStore [msgCat] 1 1).doc_ids.length =
        (buildStore [msgCat] 1 1).tokenized_corpus.length) ∧
    ((addStore (some ⟨[some "a"], [["x"]], 1, 1⟩) [msgDog] 1 1).doc_ids =
        [some "a"] ++ [msgDog].map newDocId ∧
      (addStore (some ⟨[some "a"], [["x"]], 1, 1⟩) [msgDog] 1 1).tokenized_corpus =
        [["x"]] ++ [msgDog].map tokenizeMsg ∧
      (addStore (some ⟨[some "a"], [["x"]], 1, 1⟩) [msgDog] 1 1).doc_ids.length =
        (addStore (some ⟨[some "a"], [["x"]], 1, 1⟩) [msgDog] 1 1).tokenized_corpus.length) :=
  c6_parallel_invariant ⟨[some "a"], [["x"]], 1, 1⟩ rfl [msgCat] [msgDog] 1 1 1 1

/-- C7: behaviour on missing input files.  `build_index` fails with
`corpusNotFound` exactly when the corpus source path is absent; `search`
treats a missing store as an empty index and returns `[]`; `add_documents` on
a missing store warns and proceeds from the empty id list and empty corpus;
and no warning is emitted when the store exists. -/
theorem c7_missing_file_behaviour (fs : FileSys) (cpath ipath q : String) (k1 b : ℚ)
    (tk t : ℤ) (docs : List Msg) :
    (fs.corpusFile cpath = none ↔ build_index fs cpath ipath k1 b = .error .corpusNotFound) ∧
    (fs.indexFile ipath = none → search fs ipath q tk = []) ∧
    (fs.indexFile ipath = none →
      (add_documents fs ipath docs k1 b t).2.2 = true ∧
      (add_documents fs ipath docs k1 b t).1.indexFile ipath =
        some ⟨docs.map newDocId, docs.map tokenizeMsg, k1, b⟩ ∧
      (add_documents fs ipath docs k1 b t).2.1 = docs.length) ∧
    ((fs.indexFile ipath).isSome = true → (add_documents fs ipath docs k1 b t).2.2 = false) := by
  refine ⟨?_, ?_, ?_, ?_⟩
  · cases hc : fs.corpusFile cpath with
    | none => simp [build_index, hc]
    | some docs2 => simp [build_index, hc]
  · intro h
    unfold search
    rw [h]
  · intro h
    unfold add_documents addStore
    rw [h]
    simp [setIndex]
  · intro h
    unfold add_documents
    rw [Option.isSome_iff_exists] at h
    obtain ⟨st, hst⟩ := h
    rw [hst]
    simp

/-- Witness for C7 on an empty file system (both files missing). -/
theorem c7_missing_file_behaviour_witness :
    build_index ⟨fun _ => none, fun _ => none⟩ "c.json" "idx" 1 1 = .error .corpusNotFound ∧
    search ⟨fun _ => none, fun _ => none⟩ "idx" "cat" 50 = [] ∧
    (add_documents ⟨fun _ => none, fun _ => none⟩ "idx" [] 1 1 1000).2.2 = true := by
  have h := c7_missing_file_behaviour ⟨fun _ => none, fun _ => none⟩ "c.json" "idx" "cat" 1 1
    50 1000 []
  exact ⟨h.1.mp rfl, h.2.1 rfl, (h.2.2.1 rfl).1⟩

/-- C4: an empty corpus is not an error.  Building over zero documents
succeeds and every search of the resulting index returns `[]`; adding zero
documents to a missing store succeeds, reports zero additions, and every
search of the rebuilt empty index returns `[]`. -/
theorem c4_empty_corpus (fs : FileSys) (cpath ipath q : String) (k1 b : ℚ) (tk t : ℤ)
    (hc : fs.corpusFile cpath = some []) (hi : fs.indexFile ipath = none) :
    (∃ fs2, build_index fs cpath ipath k1 b = .ok (fs2, 0, 0) ∧
      search fs2 ipath q tk = []) ∧
    ((add_documents fs ipath [] k1 b t).2.1 = 0 ∧
      search (add_documents fs ipath [] k1 b t).1 ipath q tk = []) := by
  constructor
  · refine ⟨setIndex fs ipath (buildStore [] k1 b), ?_, ?_⟩
    · unfold build_index
      rw [hc]
      rfl
    · rw [search_setIndex]
      exact searchStore_empty_corpus [] k1 b q tk
  · constructor
    · rfl
    · have h1 : (add_documents fs ipath [] k1 b t).1 =
          setIndex fs ipath (addStore (fs.indexFile ipath) [] k1 b) := rfl
      rw [h1, search_setIndex, hi]
      exact searchStore_empty_corpus [] k1 b q tk

/-- Witness for C4 on a file system holding an empty corpus file and no
index. -/
theorem c4_empty_corpus_witness :
    (∃ fs2, build_index ⟨fun _ => some [], fun _ => none⟩ "c.json" "idx" 1 1 =
        .ok (fs2, 0, 0) ∧ search fs2 "idx" "cat" 50 = []) ∧
    ((add_documents ⟨fun _ => some [], fun _ => none⟩ "idx" [] 1 1 1000).2.1 = 0 ∧
      search (add_documents ⟨fun _ => some [], fun _ => none⟩ "idx" [] 1 1 1000).1 "idx"
        "cat" 50 = []) :=
  c4_empty_corpus ⟨fun _ => some [], fun _ => none⟩ "c.json" "idx" "cat" 1 1 50 1000 rfl rfl

lemma bm25Score_nil (k1 b : ℚ) (corpus : List (List String)) (d : List String) :
    bm25Score k1 b corpus d [] = 0 := by
  simp [bm25Score]

lemma getD_map_zero (l : List (List String)) (i : ℕ) :
    (l.map (fun _ => (0 : ℝ))).getD i 0 = 0 := by
  rw [List.getD_eq_getElem?_getD, List.getElem?_map]
  cases l[i]? <;> simp

lemma searchStore_empty_query (st : StoredIndex) (q : String) (tk : ℤ)
    (h : preprocess_text q = []) : searchStore st q tk = [] := by
  unfold searchStore searchIdxScore
  simp only [h, bm25Score_nil]
  rw [List.map_eq_nil_iff]
  rw [List.filterMap_eq_nil_iff]
  intro i _
  rw [if_neg]
  rw [getD_map_zero]
  exact lt_irrefl 0

/-- C9: a query whose tokenization is empty scores `0` on every document of
every index, so after the strictly-positive filter the result list is
empty. -/
theorem c9_empty_query (fs : FileSys) (ipath q : String) (tk : ℤ)
    (h : preprocess_text q = []) : search fs ipath q tk = [] := by
  cases hfs : fs.indexFile ipath with
  | none =>
    unfold search
    rw [hfs]
  | some st =>
    unfold search
    rw [hfs]
    exact searchStore_empty_query st q tk h

/-- Witness for C9: the empty query on a concrete one-document index. -/
theorem c9_empty_query_witness :
    search ⟨fun _ => none, fun _ => some ⟨[some "1"], [["cat"]], 1, 1⟩⟩ "idx" "" 50 = [] :=
  c9_empty_query ⟨fun _ => none, fun _ => some ⟨[some "1"], [["cat"]], 1, 1⟩⟩ "idx" "" 50 rfl

lemma idxLe_total (s : List ℝ) (i j : ℕ) : idxLe s i j ∨ idxLe s j i := by
  unfold idxLe
  rcases lt_trichotomy (s.getD i 0) (s.getD j 0) with h | h | h
  · exact Or.inl (Or.inl h)
  · rcases Nat.le_total i j with hij | hij
    · exact Or.inl (Or.inr ⟨h, hij⟩)
    · exact Or.inr (Or.inr ⟨h.symm, hij⟩)
  · exact Or.inr (Or.inl h)

lemma idxLe_trans (s : List ℝ) (i j k : ℕ) (h1 : idxLe s i j) (h2 : idxLe s j k) :
    idxLe s i k := by
  unfold idxLe at h1 h2 ⊢
  rcases h1 with h1 | ⟨h1, h1n⟩ <;> rcases h2 with h2 | ⟨h2, h2n⟩
  · exact Or.inl (h1.trans h2)
  · exact Or.inl (lt_of_lt_of_eq h1 h2)
  · exact Or.inl (lt_of_eq_of_lt h1 h2)
  · exact Or.inr ⟨h1.trans h2, h1n.trans h2n⟩

lemma argsortAsc_pairwise (s : List ℝ) : (argsortAsc s).Pairwise (idxLe s) := by
  haveI ht : IsTotal ℕ (idxLe s) := ⟨idxLe_total s⟩
  haveI htr : IsTrans ℕ (idxLe s) := ⟨idxLe_trans s⟩
  exact List.sorted_insertionSort (idxLe s) (List.range s.length)

lemma argsortAsc_nodup (s : List ℝ) : (argsortAsc s).Nodup :=
  ((List.perm_insertionSort (idxLe s) (List.range s.length)).nodup_iff).mpr
    (List.nodup_range _)

lemma pySliceLast_sublist {α : Type} (k : ℤ) (xs : List α) : (pySliceLast k xs).Sublist xs := by
  unfold pySliceLast
  split
  · exact List.drop_sublist _ _
  · exact List.drop_sublist _ _

lemma pairwise_top (s : List ℝ) (tk : ℤ) :
    ((pySliceLast tk (argsortAsc s)).reverse).Pairwise
      (fun i j => idxLe s j i ∧ j ≠ i) := by
  rw [List.pairwise_reverse]
  exact ((argsortAsc_pairwise s).and (argsortAsc_nodup s)).sublist
    (pySliceLast_sublist tk (argsortAsc s))

lemma filterMap_if_pos_eq (s : List ℝ) (l : List ℕ) :
    l.filterMap (fun i => if 0 < s.getD i 0 then some (i, s.getD i 0) else none) =
      (l.filter (fun i => decide (0 < s.getD i 0))).map (fun i => (i, s.getD i 0)) := by
  induction l with
  | nil => rfl
  | cons a l ih =>
    by_cases h : 0 < s.getD a 0
    · rw [@List.filterMap_cons_some ℕ (ℕ × ℝ)
          (fun i => if 0 < s.getD i 0 then some (i, s.getD i 0) else none) a l
          (a, s.getD a 0) (if_pos h),
        List.filter_cons_of_pos (by simpa using h), List.map_cons, ih]
    · rw [@List.filterMap_cons_none ℕ (ℕ × ℝ)
          (fun i => if 0 < s.getD i 0 then some (i, s.getD i 0) else none) a l (if_neg h),
        List.filter_cons_of_neg (by simpa using h), ih]

lemma pairwise_out (s : List ℝ) (l : List ℕ)
    (hl : l.Pairwise (fun i j => idxLe s j i ∧ j ≠ i)) :
    (l.filterMap (fun i => if 0 < s.getD i 0 then some (i, s.getD i 0) else none)).Pairwise
      (fun a c => c.2 ≤ a.2 ∧ (a.2 = c.2 → c.1 < a.1)) := by
  rw [filterMap_if_pos_eq, List.pairwise_map]
  refine ((hl.sublist (List.filter_sublist _)).imp ?_)
  rintro i j ⟨hij, hne⟩
  constructor
  · rcases hij with h | ⟨h, _⟩
    · exact le_of_lt h
    · exact le_of_eq h
  · intro heq
    rcases hij with h | ⟨h, hle⟩
    · exact absurd heq (ne_of_gt h)
    · exact Nat.lt_of_le_of_ne hle hne

/-- C2 (amended): search results are non-increasing by score, and entries
with equal scores appear in strictly descending order of their original
ordinal position (the ascending argsort is reversed by the source). -/
theorem c2_sorted_desc (st : StoredIndex) (q : String) (tk : ℤ) :
    (searchIdxScore st q tk).Pairwise
      (fun a c => c.2 ≤ a.2 ∧ (a.2 = c.2 → c.1 < a.1)) ∧
    (searchStore st q tk).Pairwise (fun a c => c.2 ≤ a.2) := by
  have h : (searchIdxScore st q tk).Pairwise
      (fun a c => c.2 ≤ a.2 ∧ (a.2 = c.2 → c.1 < a.1)) :=
    pairwise_out _ _ (pairwise_top _ tk)
  refine ⟨h, ?_⟩
  unfold searchStore
  rw [List.pairwise_map]
  exact h.imp (fun hab => hab.1)

lemma searchIdxScore_pos (st : StoredIndex) (q : String) (tk : ℤ) :
    ∀ p ∈ searchIdxScore st q tk, 0 < p.2 := by
  intro p hp
  unfold searchIdxScore at hp
  rw [List.mem_filterMap] at hp
  obtain ⟨i, _, hfi⟩ := hp
  split at hfi
  · cases hfi
    assumption
  · cases hfi

lemma searchStore_pos (st : StoredIndex) (q : String) (tk : ℤ) :
    ∀ p ∈ searchStore st q tk, 0 < p.2 := by
  intro p hp
  unfold searchStore at hp
  rw [List.mem_map] at hp
  obtain ⟨a, ha, rfl⟩ := hp
  exact searchIdxScore_pos st q tk a ha

lemma searchStore_length (st : StoredIndex) (q : String) (tk : ℤ) (h : 1 ≤ tk) :
    (searchStore st q tk).length ≤ tk.toNat := by
  unfold searchStore searchIdxScore
  rw [List.length_map]
  refine le_trans (List.length_filterMap_le _ _) ?_
  rw [List.length_reverse]
  unfold pySliceLast
  rw [if_pos (by omega : (0 : ℤ) < tk)]
  rw [List.length_drop]
  omega

/-- C3 (amended): every returned score is strictly positive, and whenever
`topK ≥ 1` the result list has at most `topK` entries. -/
theorem c3_topk_bound_and_positive (fs : FileSys) (ipath q : String) (tk : ℤ) :
    (∀ p ∈ search fs ipath q tk, 0 < p.2) ∧
    (1 ≤ tk → (search fs ipath q tk).length ≤ tk.toNat) := by
  cases hfs : fs.indexFile ipath with
  | none =>
    unfold search
    rw [hfs]
    constructor
    · intro p hp
      cases hp
    · intro _
      simp
  | some st =>
    unfold search
    rw [hfs]
    exact ⟨searchStore_pos st q tk, fun h => searchStore_length st q tk h⟩

/-- Witness for C3 (amended) at a concrete index and `topK = 1`. -/
theorem c3_topk_bound_and_positive_witness :
    (search ⟨fun _ => none, fun _ => some ⟨[some "1"], [["cat"]], 1, 1⟩⟩ "idx" "cat"
        1).length ≤ (1 : ℤ).toNat ∧
    ∀ p ∈ search ⟨fun _ => none, fun _ => some ⟨[some "1"], [["cat"]], 1, 1⟩⟩ "idx" "cat" 1,
      0 < p.2 := by
  have h := c3_topk_bound_and_positive
    ⟨fun _ => none, fun _ => some ⟨[some "1"], [["cat"]], 1, 1⟩⟩ "idx" "cat" 1
  exact ⟨h.2 (by decide), h.1⟩

/-- The spec scenario corpus, built with `k1 = 1.2`, `b = 0.75`. -/
def cdStore : StoredIndex :=
  buildStore [msgCat, msgDog] 1.2 0.75

/-- The tokenized corpus of the scenario store. -/
def cdCorpus : List (List String) :=
  [["the", "cat", "sat"], ["the", "dog", "ran"]]

lemma dedup_single {α : Type} [DecidableEq α] (t : α) : [t].dedup = [t] := by
  rw [List.dedup_cons_of_not_mem (List.not_mem_nil t), List.dedup_nil]

lemma bm25Score_single (k1 b : ℚ) (corpus : List (List String)) (d : List String)
    (t : String) :
    bm25Score k1 b corpus d [t] =
      idf corpus t * ((termFreq d t : ℝ) * ((k1 : ℝ) + 1)) /
        ((termFreq d t : ℝ) + (k1 : ℝ) *
          (1 - (b : ℝ) + (b : ℝ) * (d.length : ℝ) / (avgdl corpus : ℝ))) := by
  unfold bm25Score
  rw [dedup_single, List.map_cons, List.map_nil, List.sum_cons, List.sum_nil, add_zero]

lemma log2_pos : (0 : ℝ) < Real.log 2 :=
  Real.log_pos (by norm_num)

lemma log65_pos : (0 : ℝ) < Real.log (6 / 5) :=
  Real.log_pos (by norm_num)

lemma idf_cd_cat : idf cdCorpus "cat" = Real.log 2 := by
  unfold idf
  rw [show docFreq cdCorpus "cat" = 1 by decide]
  rw [if_neg (by decide : ¬ (1 : ℕ) = 0)]
  rw [show cdCorpus.length = 2 by decide]
  norm_num

lemma idf_cd_the : idf cdCorpus "the" = Real.log (6 / 5) := by
  unfold idf
  rw [show docFreq cdCorpus "the" = 2 by decide]
  rw [if_neg (by decide : ¬ (2 : ℕ) = 0)]
  rw [show cdCorpus.length = 2 by decide]
  norm_num

lemma idf_cd_zebra : idf cdCorpus "zebra" = 0 := by
  unfold idf
  rw [show docFreq cdCorpus "zebra" = 0 by decide]
  exact if_pos rfl

lemma score_cd_cat0 :
    bm25Score 1.2 0.75 cdCorpus ["the", "cat", "sat"] ["cat"] = Real.log 2 := by
  rw [bm25Score_single, idf_cd_cat]
  rw [show termFreq ["the", "cat", "sat"] "cat" = 1 by decide]
  rw [show avgdl cdCorpus = 3 by norm_num [avgdl, cdCorpus]]
  rw [show (["the", "cat", "sat"] : List String).length = 3 by decide]
  push_cast
  rw [mul_div_assoc]
  norm_num

lemma score_cd_cat1 :
    bm25Score 1.2 0.75 cdCorpus ["the", "dog", "ran"] ["cat"] = 0 := by
  rw [bm25Score_single]
  rw [show termFreq ["the", "dog", "ran"] "cat" = 0 by decide]
  simp

lemma score_cd_the0 :
    bm25Score 1.2 0.75 cdCorpus ["the", "cat", "sat"] ["the"] = Real.log (6 / 5) := by
  rw [bm25Score_single, idf_cd_the]
  rw [show termFreq ["the", "cat", "sat"] "the" = 1 by decide]
  rw [show avgdl cdCorpus = 3 by norm_num [avgdl, cdCorpus]]
  rw [show (["the", "cat", "sat"] : List String).length = 3 by decide]
  push_cast
  rw [mul_div_assoc]
  norm_num

lemma score_cd_the1 :
    bm25Score 1.2 0.75 cdCorpus ["the", "dog", "ran"] ["the"] = Real.log (6 / 5) := by
  rw [bm25Score_single, idf_cd_the]
  rw [show termFreq ["the", "dog", "ran"] "the" = 1 by decide]
  rw [show avgdl cdCorpus = 3 by norm_num [avgdl, cdCorpus]]
  rw [show (["the", "dog", "ran"] : List String).length = 3 by decide]
  push_cast
  rw [mul_div_assoc]
  norm_num

lemma score_cd_zebra (d : List String) :
    bm25Score 1.2 0.75 cdCorpus d ["zebra"] = 0 := by
  rw [bm25Score_single, idf_cd_zebra]
  simp


lemma argsortAsc_two (s0 s1 : ℝ) :
    argsortAsc [s0, s1] = if idxLe [s0, s1] 0 1 then [0, 1] else [1, 0] := by
  unfold argsortAsc
  rw [show ([s0, s1] : List ℝ).length = 2 from rfl, show List.range 2 = [0, 1] from rfl]
  simp only [List.insertionSort, List.orderedInsert]

lemma argsort_cat : argsortAsc [Real.log 2, 0] = [1, 0] := by
  rw [argsortAsc_two, if_neg]
  intro h
  unfold idxLe at h
  simp only [List.getD_cons_zero, List.getD_cons_succ] at h
  rcases h with h | ⟨h, -⟩
  · linarith [log2_pos]
  · linarith [log2_pos]

lemma argsort_tie (v : ℝ) : argsortAsc [v, v] = [0, 1] := by
  rw [argsortAsc_two, if_pos]
  exact Or.inr ⟨by simp, by norm_num⟩

lemma filterMap_pair_pos_neg (s : List ℝ) (i j : ℕ) (hi : 0 < s.getD i 0)
    (hj : ¬ 0 < s.getD j 0) :
    [i, j].filterMap (fun x => if 0 < s.getD x 0 then some (x, s.getD x 0) else none) =
      [(i, s.getD i 0)] := by
  rw [@List.filterMap_cons_some ℕ (ℕ × ℝ)
      (fun x => if 0 < s.getD x 0 then some (x, s.getD x 0) else none) i [j]
      (i, s.getD i 0) (if_pos hi),
    @List.filterMap_cons_none ℕ (ℕ × ℝ)
      (fun x => if 0 < s.getD x 0 then some (x, s.getD x 0) else none) j [] (if_neg hj),
    List.filterMap_nil]

lemma filterMap_pair_both (s : List ℝ) (i j : ℕ) (hi : 0 < s.getD i 0)
    (hj : 0 < s.getD j 0) :
    [i, j].filterMap (fun x => if 0 < s.getD x 0 then some (x, s.getD x 0) else none) =
      [(i, s.getD i 0), (j, s.getD j 0)] := by
  rw [@List.filterMap_cons_some ℕ (ℕ × ℝ)
      (fun x => if 0 < s.getD x 0 then some (x, s.getD x 0) else none) i [j]
      (i, s.getD i 0) (if_pos hi),
    @List.filterMap_cons_some ℕ (ℕ × ℝ)
      (fun x => if 0 < s.getD x 0 then some (x, s.getD x 0) else none) j []
      (j, s.getD j 0) (if_pos hj),
    List.filterMap_nil]

lemma filterMap_pair_none (s : List ℝ) (i j : ℕ) (hi : ¬ 0 < s.getD i 0)
    (hj : ¬ 0 < s.getD j 0) :
    [i, j].filterMap (fun x => if 0 < s.getD x 0 then some (x, s.getD x 0) else none) =
      [] := by
  rw [@List.filterMap_cons_none ℕ (ℕ × ℝ)
      (fun x => if 0 < s.getD x 0 then some (x, s.getD x 0) else none) i [j] (if_neg hi),
    @List.filterMap_cons_none ℕ (ℕ × ℝ)
      (fun x => if 0 < s.getD x 0 then some (x, s.getD x 0) else none) j [] (if_neg hj),
    List.filterMap_nil]

lemma scores_cd_cat :
    cdCorpus.map (fun d => bm25Score 1.2 0.75 cdCorpus d ["cat"]) = [Real.log 2, 0] := by
  show List.map (fun d => bm25Score 1.2 0.75 cdCorpus d ["cat"])
    [["the", "cat", "sat"], ["the", "dog", "ran"]] = [Real.log 2, 0]
  rw [List.map_cons, List.map_cons, List.map_nil, score_cd_cat0, score_cd_cat1]

lemma scores_cd_the :
    cdCorpus.map (fun d => bm25Score 1.2 0.75 cdCorpus d ["the"]) =
      [Real.log (6 / 5), Real.log (6 / 5)] := by
  show List.map (fun d => bm25Score 1.2 0.75 cdCorpus d ["the"])
    [["the", "cat", "sat"], ["the", "dog", "ran"]] = [Real.log (6 / 5), Real.log (6 / 5)]
  rw [List.map_cons, List.map_cons, List.map_nil, score_cd_the0, score_cd_the1]

lemma scores_cd_zebra :
    cdCorpus.map (fun d => bm25Score 1.2 0.75 cdCorpus d ["zebra"]) = [0, 0] := by
  show List.map (fun d => bm25Score 1.2 0.75 cdCorpus d ["zebra"])
    [["the", "cat", "sat"], ["the", "dog", "ran"]] = [0, 0]
  rw [List.map_cons, List.map_cons, List.map_nil, score_cd_zebra, score_cd_zebra]

lemma searchIdx_cd_cat : searchIdxScore cdStore "cat" 50 = [(0, Real.log 2)] := by
  simp only [searchIdxScore]
  rw [show cdStore.tokenized_corpus = cdCorpus from by decide,
    show cdStore.k1 = 1.2 from rfl, show cdStore.b = 0.75 from rfl,
    show preprocess_text "cat" = ["cat"] from by decide, scores_cd_cat, argsort_cat,
    show pySliceLast 50 ([1, 0] : List ℕ) = [1, 0] from by decide,
    show ([1, 0] : List ℕ).reverse = [0, 1] from by decide,
    filterMap_pair_pos_neg [Real.log 2, 0] 0 1 (by simpa using log2_pos) (by simp),
    List.getD_cons_zero]

lemma search_cd_cat : searchStore cdStore "cat" 50 = [(some "1", Real.log 2)] := by
  unfold searchStore
  rw [searchIdx_cd_cat, List.map_cons, List.map_nil,
    show cdStore.doc_ids.getD 0 none = some "1" from by decide]

lemma searchIdx_cd_the :
    searchIdxScore cdStore "the" 50 = [(1, Real.log (6 / 5)), (0, Real.log (6 / 5))] := by
  simp only [searchIdxScore]
  rw [show cdStore.tokenized_corpus = cdCorpus from by decide,
    show cdStore.k1 = 1.2 from rfl, show cdStore.b = 0.75 from rfl,
    show preprocess_text "the" = ["the"] from by decide, scores_cd_the,
    argsort_tie (Real.log (6 / 5)),
    show pySliceLast 50 ([0, 1] : List ℕ) = [0, 1] from by decide,
    show ([0, 1] : List ℕ).reverse = [1, 0] from by decide,
    filterMap_pair_both [Real.log (6 / 5), Real.log (6 / 5)] 1 0 (by simpa using log65_pos)
      (by simpa using log65_pos),
    List.getD_cons_zero, List.getD_cons_succ, List.getD_cons_zero]

lemma search_cd_the :
    searchStore cdStore "the" 50 =
      [(some "2", Real.log (6 / 5)), (some "1", Real.log (6 / 5))] := by
  unfold searchStore
  rw [searchIdx_cd_the, List.map_cons, List.map_cons, List.map_nil,
    show cdStore.doc_ids.getD 1 none = some "2" from by decide,
    show cdStore.doc_ids.getD 0 none = some "1" from by decide]

lemma search_cd_zebra : searchStore cdStore "zebra" 50 = [] := by
  simp only [searchStore, searchIdxScore]
  rw [show cdStore.tokenized_corpus = cdCorpus from by decide,
    show cdStore.k1 = 1.2 from rfl, show cdStore.b = 0.75 from rfl,
    show preprocess_text "zebra" = ["zebra"] from by decide, scores_cd_zebra,
    argsort_tie (0 : ℝ),
    show pySliceLast 50 ([0, 1] : List ℕ) = [0, 1] from by decide,
    show ([0, 1] : List ℕ).reverse = [1, 0] from by decide,
    filterMap_pair_none [(0 : ℝ), 0] 1 0 (by simp) (by simp), List.map_nil]

/-- C1: the spec scenario.  On the corpus `[(1, "the cat sat"), (2, "the dog
ran")]` with `k1 = 1.2`, `b = 0.75`: query `cat` returns exactly document `1`
with a strictly positive score (document `2` is absent), query `the` returns
both documents with strictly positive scores, and query `zebra` returns
nothing. -/
theorem c1_scenario :
    searchStore cdStore "cat" 50 = [(some "1", Real.log 2)] ∧ 0 < Real.log 2 ∧
    searchStore cdStore "the" 50 =
      [(some "2", Real.log (6 / 5)), (some "1", Real.log (6 / 5))] ∧
    0 < Real.log (6 / 5) ∧
    searchStore cdStore "zebra" 50 = [] :=
  ⟨search_cd_cat, log2_pos, search_cd_the, log65_pos, search_cd_zebra⟩


/-- A two-document corpus in which both documents are the single token
`cat`, so both receive exactly the same score. -/
def msgCatA : Msg :=
  ⟨some "1", some "cat", none, none, none, none, none⟩

/-- The second identical document of the tie corpus. -/
def msgCatB : Msg :=
  ⟨some "2", some "cat", none, none, none, none, none⟩

/-- The tie store, built with `k1 = 1.2`, `b = 0.75`. -/
def twoCatStore : StoredIndex :=
  buildStore [msgCatA, msgCatB] 1.2 0.75

/-- The tokenized corpus of the tie store. -/
def tcCorpus : List (List String) :=
  [["cat"], ["cat"]]

lemma idf_tc_cat : idf tcCorpus "cat" = Real.log (6 / 5) := by
  unfold idf
  rw [show docFreq tcCorpus "cat" = 2 by decide]
  rw [if_neg (by decide : ¬ (2 : ℕ) = 0)]
  rw [show tcCorpus.length = 2 by decide]
  norm_num

lemma score_tc_cat :
    bm25Score 1.2 0.75 tcCorpus ["cat"] ["cat"] = Real.log (6 / 5) := by
  rw [bm25Score_single, idf_tc_cat]
  rw [show termFreq ["cat"] "cat" = 1 by decide]
  rw [show avgdl tcCorpus = 1 by norm_num [avgdl, tcCorpus]]
  rw [show (["cat"] : List String).length = 1 by decide]
  push_cast
  rw [mul_div_assoc]
  norm_num

lemma scores_tc_cat :
    tcCorpus.map (fun d => bm25Score 1.2 0.75 tcCorpus d ["cat"]) =
      [Real.log (6 / 5), Real.log (6 / 5)] := by
  show List.map (fun d => bm25Score 1.2 0.75 tcCorpus d ["cat"]) [["cat"], ["cat"]] =
    [Real.log (6 / 5), Real.log (6 / 5)]
  rw [List.map_cons, List.map_cons, List.map_nil, score_tc_cat]

lemma searchIdx_tc_cat :
    searchIdxScore twoCatStore "cat" 50 = [(1, Real.log (6 / 5)), (0, Real.log (6 / 5))] := by
  simp only [searchIdxScore]
  rw [show twoCatStore.tokenized_corpus = tcCorpus from by decide,
    show twoCatStore.k1 = 1.2 from rfl, show twoCatStore.b = 0.75 from rfl,
    show preprocess_text "cat" = ["cat"] from by decide, scores_tc_cat,
    argsort_tie (Real.log (6 / 5)),
    show pySliceLast 50 ([0, 1] : List ℕ) = [0, 1] from by decide,
    show ([0, 1] : List ℕ).reverse = [1, 0] from by decide,
    filterMap_pair_both [Real.log (6 / 5), Real.log (6 / 5)] 1 0 (by simpa using log65_pos)
      (by simpa using log65_pos),
    List.getD_cons_zero, List.getD_cons_succ, List.getD_cons_zero]

lemma search_tc_cat :
    searchStore twoCatStore "cat" 50 =
      [(some "2", Real.log (6 / 5)), (some "1", Real.log (6 / 5))] := by
  unfold searchStore
  rw [searchIdx_tc_cat, List.map_cons, List.map_cons, List.map_nil,
    show twoCatStore.doc_ids.getD 1 none = some "2" from by decide,
    show twoCatStore.doc_ids.getD 0 none = some "1" from by decide]

/-- Counterexample to C2 as stated: on the tie corpus both documents have
exactly the same score, yet the result lists ordinal 1 before ordinal 0, so
equal-score entries appear in descending, not ascending, ordinal order. -/
theorem c2_counterexample :
    searchStore twoCatStore "cat" 50 =
      [(some "2", Real.log (6 / 5)), (some "1", Real.log (6 / 5))] ∧
    ¬ (searchIdxScore twoCatStore "cat" 50).Pairwise (fun a c => a.2 = c.2 → a.1 < c.1) := by
  refine ⟨search_tc_cat, ?_⟩
  rw [searchIdx_tc_cat]
  intro h
  rcases List.pairwise_cons.mp h with ⟨h1, -⟩
  have h2 := h1 (0, Real.log (6 / 5)) (by simp) rfl
  omega

lemma searchIdx_tc_cat_zero :
    searchIdxScore twoCatStore "cat" 0 = [(1, Real.log (6 / 5)), (0, Real.log (6 / 5))] := by
  simp only [searchIdxScore]
  rw [show twoCatStore.tokenized_corpus = tcCorpus from by decide,
    show twoCatStore.k1 = 1.2 from rfl, show twoCatStore.b = 0.75 from rfl,
    show preprocess_text "cat" = ["cat"] from by decide, scores_tc_cat,
    argsort_tie (Real.log (6 / 5)),
    show pySliceLast 0 ([0, 1] : List ℕ) = [0, 1] from by decide,
    show ([0, 1] : List ℕ).reverse = [1, 0] from by decide,
    filterMap_pair_both [Real.log (6 / 5), Real.log (6 / 5)] 1 0 (by simpa using log65_pos)
      (by simpa using log65_pos),
    List.getD_cons_zero, List.getD_cons_succ, List.getD_cons_zero]

/-- Counterexample to C3 as stated: with `topK = 0` the Python slice
`scores[-0:]` is the whole array, so the search returns two results, more
than `topK`. -/
theorem c3_counterexample :
    (searchStore twoCatStore "cat" 0).length = 2 ∧
    ¬ ((searchStore twoCatStore "cat" 0).length ≤ 0) := by
  have h : (searchStore twoCatStore "cat" 0).length = 2 := by
    unfold searchStore
    rw [searchIdx_tc_cat_zero]
    rfl
  exact ⟨h, by omega⟩


lemma hasHttpMatch_cons (a : Char) (rest : List Char) :
    hasHttpMatch (a :: rest) = (startsHttp (a :: rest) || hasHttpMatch rest) :=
  rfl

lemma stripHttpAux_noMatch : ∀ (m : Bool) (cs : List Char), m = false →
    hasHttpMatch cs = false → stripHttpAux m cs = cs := by
  intro m cs
  induction m, cs using stripHttpAux.induct with
  | case1 x =>
    intro _ _
    cases x <;> rfl
  | case2 c rest hsp ih =>
    intro hm _
    cases hm
  | case3 c rest hsp ih =>
    intro hm _
    cases hm
  | case4 c rest hsp ih =>
    intro _ hh
    have hh2 : hasHttpMatch (c :: rest) = false := by
      rw [hasHttpMatch_cons, Bool.or_eq_false_iff] at hh
      replace hh := hh.2
      rw [hasHttpMatch_cons, Bool.or_eq_false_iff] at hh
      replace hh := hh.2
      rw [hasHttpMatch_cons, Bool.or_eq_false_iff] at hh
      replace hh := hh.2
      rw [hasHttpMatch_cons, Bool.or_eq_false_iff] at hh
      exact hh.2
    simp only [stripHttpAux]
    rw [if_pos hsp, ih rfl hh2]
  | case5 c rest hsp ih =>
    intro _ hh
    exfalso
    rw [hasHttpMatch_cons, Bool.or_eq_false_iff] at hh
    have h1 := hh.1
    unfold startsHttp at h1
    simp at h1
    exact hsp h1
  | case6 c rest hne ih =>
    intro _ hh
    have hh2 : hasHttpMatch rest = false := by
      rw [hasHttpMatch_cons, Bool.or_eq_false_iff] at hh
      exact hh.2
    have ihr := ih rfl hh2
    rw [stripHttpAux.eq_def]
    split
    · rename_i heq
      cases heq
    · rename_i heq1 heq2
      cases heq1
    · rename_i c1 r1 heq1 heq2
      injection heq2 with ha hb
      exact (hne c1 r1 ha hb).elim
    · rename_i c1 r1 hx heq1 heq2
      injection heq2 with ha hb
      subst ha
      subst hb
      rw [ihr]

lemma stripMentionF_noLt (fuel : ℕ) : ∀ (cs : List Char), (∀ c ∈ cs, c ≠ '<') →
    stripMentionF fuel cs = cs := by
  induction fuel with
  | zero =>
    intro cs _
    cases cs <;> rfl
  | succ fuel ih =>
    intro cs h
    cases cs with
    | nil => rfl
    | cons c rest =>
      have hc : c ≠ '<' := h c (List.mem_cons_self c rest)
      show stripMentionF (fuel + 1) (c :: rest) = c :: rest
      unfold stripMentionF
      rw [if_neg hc, ih rest (fun d hd => h d (List.mem_cons_of_mem c hd))]

lemma stripMention_noLt (cs : List Char) (h : ∀ c ∈ cs, c ≠ '<') : stripMention cs = cs :=
  stripMentionF_noLt cs.length cs h

lemma space_cases (c : Char) (h : isSpaceChar c = true) :
    c = ' ' ∨ c = '\t' ∨ c = '\n' ∨ c = '\r' ∨ c = '\x0b' ∨ c = '\x0c' ∨
      c = '\x1c' ∨ c = '\x1d' ∨ c = '\x1e' ∨ c = '\x1f' := by
  unfold isSpaceChar at h
  simp only [Bool.or_eq_true, beq_iff_eq] at h
  tauto

lemma isWord_not_space (c : Char) (h : isWordChar c = true) : isSpaceChar c = false := by
  cases hs : isSpaceChar c
  · rfl
  · exfalso
    rcases space_cases c hs with rfl | rfl | rfl | rfl | rfl | rfl | rfl | rfl | rfl | rfl <;>
      exact absurd h (by decide)

lemma isWord_ne_lt (c : Char) (h : isWordChar c = true) : c ≠ '<' := by
  intro he
  subst he
  exact absurd h (by decide)

lemma toLower_eval (c : Char) (hg : 65 ≤ c.toNat ∧ c.toNat ≤ 90) :
    c.toLower = Char.ofNat (c.toNat + 32) := by
  show (if c.toNat ≥ 65 ∧ c.toNat ≤ 90 then Char.ofNat (c.toNat + 32) else c) =
    Char.ofNat (c.toNat + 32)
  rw [if_pos hg]

lemma toLower_fix (c : Char) (hg : ¬ (65 ≤ c.toNat ∧ c.toNat ≤ 90)) : c.toLower = c := by
  show (if c.toNat ≥ 65 ∧ c.toNat ≤ 90 then Char.ofNat (c.toNat + 32) else c) = c
  rw [if_neg hg]

lemma toLower_word (c : Char) (h : isWordChar c = true) :
    isWordChar c.toLower = true ∧ c.toLower.toLower = c.toLower := by
  by_cases hg : 65 ≤ c.toNat ∧ c.toNat ≤ 90
  · rw [toLower_eval c hg]
    obtain ⟨h1, h2⟩ := hg
    generalize c.toNat = n at h1 h2
    interval_cases n <;> exact ⟨by decide, by decide⟩
  · have hf := toLower_fix c hg
    rw [hf]
    exact ⟨h, hf⟩

lemma toLower_space (c : Char) (h : isSpaceChar c = true) : c.toLower = c := by
  rcases space_cases c h with rfl | rfl | rfl | rfl | rfl | rfl | rfl | rfl | rfl | rfl <;>
    decide


lemma splitWsAux_inv (P : Char → Prop) :
    ∀ (cs acc : List Char), (∀ c ∈ cs, P c) → (∀ c ∈ acc, P c ∧ isSpaceChar c = false) →
      ∀ t ∈ splitWsAux acc cs, t ≠ [] ∧ ∀ c ∈ t, P c ∧ isSpaceChar c = false := by
  intro cs
  induction cs with
  | nil =>
    intro acc hcs hacc t ht
    unfold splitWsAux at ht
    by_cases he : acc.isEmpty
    · rw [if_pos he] at ht
      cases ht
    · rw [if_neg he] at ht
      rw [List.mem_singleton] at ht
      subst ht
      refine ⟨?_, ?_⟩
      · intro hrev
        rw [List.reverse_eq_nil_iff] at hrev
        subst hrev
        exact he rfl
      · intro c hc
        exact hacc c (List.mem_reverse.mp hc)
  | cons a rest ih =>
    intro acc hcs hacc t ht
    unfold splitWsAux at ht
    by_cases hsp : isSpaceChar a = true
    · rw [if_pos hsp] at ht
      by_cases he : acc.isEmpty
      · rw [if_pos he] at ht
        exact ih [] (fun c hc => hcs c (List.mem_cons_of_mem a hc))
          (fun c hc => absurd hc (List.not_mem_nil c)) t ht
      · rw [if_neg he] at ht
        rcases List.mem_cons.mp ht with rfl | ht2
        · refine ⟨?_, ?_⟩
          · intro hrev
            rw [List.reverse_eq_nil_iff] at hrev
            subst hrev
            exact he rfl
          · intro c hc
            exact hacc c (List.mem_reverse.mp hc)
        · exact ih [] (fun c hc => hcs c (List.mem_cons_of_mem a hc))
            (fun c hc => absurd hc (List.not_mem_nil c)) t ht2
    · rw [if_neg hsp] at ht
      refine ih (a :: acc) (fun c hc => hcs c (List.mem_cons_of_mem a hc)) ?_ t ht
      intro c hc
      rcases List.mem_cons.mp hc with rfl | hc2
      · refine ⟨hcs c (List.mem_cons_self c rest), ?_⟩
        cases h2 : isSpaceChar c
        · rfl
        · exact absurd h2 hsp
      · exact hacc c hc2

lemma chars_lp (X : List Char) (c : Char) (hc : c ∈ lowerChars (punctToSpace X)) :
    (isWordChar c = true ∧ c.toLower = c) ∨ isSpaceChar c = true := by
  unfold lowerChars punctToSpace at hc
  rw [List.map_map, List.mem_map] at hc
  obtain ⟨e, _, rfl⟩ := hc
  show (isWordChar (Char.toLower (if (isWordChar e || isSpaceChar e) = true then e else ' ')) =
      true ∧
      (Char.toLower (if (isWordChar e || isSpaceChar e) = true then e else ' ')).toLower =
        Char.toLower (if (isWordChar e || isSpaceChar e) = true then e else ' ')) ∨
    isSpaceChar (Char.toLower (if (isWordChar e || isSpaceChar e) = true then e else ' ')) = true
  by_cases hw : (isWordChar e || isSpaceChar e) = true
  · rw [if_pos hw]
    rcases Bool.or_eq_true_iff.mp hw with hwe | hse
    · exact Or.inl ⟨(toLower_word e hwe).1, (toLower_word e hwe).2⟩
    · rw [toLower_space e hse]
      exact Or.inr hse
  · rw [if_neg hw]
    exact Or.inr (by decide)

lemma tokensC_facts (cs : List Char) :
    ∀ t ∈ tokensC cs, t ≠ [] ∧ ∀ c ∈ t, isWordChar c = true ∧
      c.toLower = c ∧ isSpaceChar c = false := by
  intro t ht
  unfold tokensC at ht
  have ht2 := List.mem_of_mem_filter ht
  have h := splitWsAux_inv
    (fun c => (isWordChar c = true ∧ c.toLower = c) ∨ isSpaceChar c = true)
    (lowerChars (punctToSpace (stripMention (stripHttp cs)))) []
    (fun c hc => chars_lp _ c hc)
    (fun c hc => absurd hc (List.not_mem_nil c)) t ht2
  refine ⟨h.1, ?_⟩
  intro c hc
  obtain ⟨hP, hns⟩ := h.2 c hc
  rcases hP with ⟨hw, hl⟩ | hs
  · exact ⟨hw, hl, hns⟩
  · rw [hs] at hns
    cases hns

lemma punctToSpace_id : ∀ (cs : List Char),
    (∀ c ∈ cs, isWordChar c = true ∨ isSpaceChar c = true) → punctToSpace cs = cs := by
  intro cs
  induction cs with
  | nil =>
    intro _
    rfl
  | cons a rest ih =>
    intro h
    show List.map _ (a :: rest) = a :: rest
    rw [List.map_cons]
    rw [if_pos (Bool.or_eq_true_iff.mpr (h a (List.mem_cons_self a rest)))]
    exact congrArg (List.cons a) (ih (fun c hc => h c (List.mem_cons_of_mem a hc)))

lemma lowerChars_id : ∀ (cs : List Char), (∀ c ∈ cs, c.toLower = c) → lowerChars cs = cs := by
  intro cs
  induction cs with
  | nil =>
    intro _
    rfl
  | cons a rest ih =>
    intro h
    show List.map _ (a :: rest) = a :: rest
    rw [List.map_cons, h a (List.mem_cons_self a rest)]
    exact congrArg (List.cons a) (ih (fun c hc => h c (List.mem_cons_of_mem a hc)))

lemma splitWsAux_token (t : List Char) (h : ∀ c ∈ t, isSpaceChar c = false) :
    ∀ (acc rest : List Char), splitWsAux acc (t ++ rest) = splitWsAux (t.reverse ++ acc) rest := by
  induction t with
  | nil =>
    intro acc rest
    rfl
  | cons c t ih =>
    intro acc rest
    have hc : isSpaceChar c = false := h c (List.mem_cons_self c t)
    show (if isSpaceChar c = true then
        (if acc.isEmpty = true then splitWsAux [] (t ++ rest)
        else acc.reverse :: splitWsAux [] (t ++ rest))
      else splitWsAux (c :: acc) (t ++ rest)) = splitWsAux ((c :: t).reverse ++ acc) rest
    rw [if_neg (by rw [hc]; exact Bool.false_ne_true)]
    rw [ih (fun d hd => h d (List.mem_cons_of_mem c hd)) (c :: acc) rest,
      List.reverse_cons, List.append_assoc]
    rfl

lemma splitWs_joinSep : ∀ (ts : List (List Char)),
    (∀ t ∈ ts, t ≠ [] ∧ ∀ c ∈ t, isSpaceChar c = false) → splitWs (joinSep ts) = ts := by
  intro ts
  induction ts with
  | nil =>
    intro _
    rfl
  | cons t ts ih =>
    intro h
    obtain ⟨htne, htns⟩ := h t (List.mem_cons_self t ts)
    have hrevne : ¬ t.reverse.isEmpty = true := by
      intro hemp
      rw [List.isEmpty_iff, List.reverse_eq_nil_iff] at hemp
      exact htne hemp
    cases ts with
    | nil =>
      show splitWs (joinSep [t]) = [t]
      have hj : joinSep [t] = t := rfl
      rw [hj]
      unfold splitWs
      have h0 := splitWsAux_token t htns [] []
      rw [List.append_nil, List.append_nil] at h0
      rw [h0]
      unfold splitWsAux
      rw [if_neg hrevne, List.reverse_reverse]
    | cons t2 ts2 =>
      show splitWs (joinSep (t :: t2 :: ts2)) = t :: t2 :: ts2
      have hj : joinSep (t :: t2 :: ts2) = t ++ ' ' :: joinSep (t2 :: ts2) := rfl
      rw [hj]
      unfold splitWs
      rw [splitWsAux_token t htns [] (' ' :: joinSep (t2 :: ts2))]
      rw [List.append_nil]
      unfold splitWsAux
      rw [if_pos (by decide : isSpaceChar ' ' = true)]
      rw [if_neg hrevne, List.reverse_reverse]
      exact congrArg (List.cons t) (ih (fun u hu => h u (List.mem_cons_of_mem t hu)))

lemma dropWhile_nonspace (t : List Char) (h : ∀ c ∈ t, isSpaceChar c = false) :
    t.dropWhile isSpaceChar = t := by
  cases t with
  | nil => rfl
  | cons a rest =>
    rw [List.dropWhile_cons_of_neg]
    rw [h a (List.mem_cons_self a rest)]
    exact Bool.false_ne_true

lemma pyStrip_id (t : List Char) (h : ∀ c ∈ t, isSpaceChar c = false) : pyStrip t = t := by
  unfold pyStrip
  rw [dropWhile_nonspace t h]
  rw [dropWhile_nonspace t.reverse (fun c hc => h c (List.mem_reverse.mp hc))]
  exact List.reverse_reverse t

lemma filter_strip_id (ts : List (List Char))
    (h : ∀ t ∈ ts, t ≠ [] ∧ ∀ c ∈ t, isSpaceChar c = false) :
    ts.filter (fun t => !(pyStrip t).isEmpty) = ts := by
  rw [List.filter_eq_self]
  intro t ht
  rw [pyStrip_id t (h t ht).2]
  cases hcase : t with
  | nil => exact absurd hcase (h t ht).1
  | cons a rest => rfl

lemma mem_joinSep : ∀ (ts : List (List Char)) (c : Char), c ∈ joinSep ts →
    c = ' ' ∨ ∃ t, t ∈ ts ∧ c ∈ t := by
  intro ts
  induction ts with
  | nil =>
    intro c hc
    cases hc
  | cons t ts ih =>
    intro c hc
    cases ts with
    | nil =>
      exact Or.inr ⟨t, List.mem_cons_self t [], hc⟩
    | cons t2 ts2 =>
      have hj : joinSep (t :: t2 :: ts2) = t ++ ' ' :: joinSep (t2 :: ts2) := rfl
      rw [hj] at hc
      rcases List.mem_append.mp hc with h1 | h2
      · exact Or.inr ⟨t, List.mem_cons_self t (t2 :: ts2), h1⟩
      · rcases List.mem_cons.mp h2 with rfl | h3
        · exact Or.inl rfl
        · rcases ih c h3 with hsp | ⟨u, hu, hcu⟩
          · exact Or.inl hsp
          · exact Or.inr ⟨u, List.mem_cons_of_mem t hu, hcu⟩


/-- Counterexample to C8 as stated: `normalize("HTTPX") = ["httpx"]` (the
case-sensitive URL pattern does not fire, and lowering happens afterwards),
but re-normalizing the join `"httpx"` strips it entirely via `http\S+`,
yielding `[]`. -/
theorem c8_counterexample :
    preprocess_text (joinTokens (preprocess_text "HTTPX")) ≠ preprocess_text "HTTPX" := by
  decide

/-- C8 (amended): on ASCII input, the tokenizer is idempotent on its own
output whenever the URL-stripping pattern `http\S+` does not match the
whitespace-join of the first pass (that is, no emitted token contains `http`
followed by a further character).  All other pipeline stages are then
genuinely idempotent: tokens consist of lowercase-stable word characters, so
mention stripping, punctuation replacement, lowering, splitting and the final
filter all leave the rejoined text unchanged.

The ASCII hypothesis delimits the domain on which this model's character
classes coincide with Python's Unicode ones, so it is exactly the domain on
which the theorem speaks for the program; the model itself is
character-to-character, so its proof does not consume the hypothesis.
Outside ASCII the program can break idempotence independently of the URL
rule: Python lowers U+0130 to `i` followed by the combining mark U+0307,
which the second pass replaces with a space, so `normalize` of that join
drops the mark. -/
theorem c8_idempotent_amended (s : String) (_hascii : ∀ c ∈ s.data, c.toNat < 128)
    (h : hasHttpMatch (joinTokens (preprocess_text s)).data = false) :
    preprocess_text (joinTokens (preprocess_text s)) = preprocess_text s := by
  have hmapdata : (preprocess_text s).map String.data = tokensC s.data := by
    unfold preprocess_text
    rw [List.map_map]
    rw [List.map_congr_left (fun t _ => rfl : ∀ t ∈ tokensC s.data,
      (String.data ∘ fun t => String.mk t) t = id t)]
    exact List.map_id _
  have hdata : (joinTokens (preprocess_text s)).data = joinSep (tokensC s.data) := by
    show (String.mk (joinSep ((preprocess_text s).map String.data))).data = _
    rw [hmapdata]
  have htokchars := tokensC_facts s.data
  have hjc : ∀ c ∈ joinSep (tokensC s.data),
      (isWordChar c = true ∨ isSpaceChar c = true) ∧ c ≠ '<' ∧ c.toLower = c := by
    intro c hc
    rcases mem_joinSep _ c hc with rfl | ⟨u, hu, hcu⟩
    · exact ⟨Or.inr (by decide), by decide, by decide⟩
    · obtain ⟨hw, hl, hns⟩ := (htokchars u hu).2 c hcu
      exact ⟨Or.inl hw, isWord_ne_lt c hw, hl⟩
  suffices hsuff : tokensC ((joinTokens (preprocess_text s)).data) = tokensC s.data by
    show (tokensC ((joinTokens (preprocess_text s)).data)).map _ = (tokensC s.data).map _
    rw [hsuff]
  rw [hdata] at h ⊢
  show (splitWs (lowerChars (punctToSpace (stripMention
      (stripHttp (joinSep (tokensC s.data))))))).filter (fun t => !(pyStrip t).isEmpty) =
    tokensC s.data
  rw [show stripHttp (joinSep (tokensC s.data)) = joinSep (tokensC s.data) from
    stripHttpAux_noMatch false _ rfl h]
  rw [stripMention_noLt _ (fun c hc => (hjc c hc).2.1)]
  rw [punctToSpace_id _ (fun c hc => (hjc c hc).1)]
  rw [lowerChars_id _ (fun c hc => (hjc c hc).2.2)]
  rw [splitWs_joinSep _ (fun t ht =>
    ⟨(htokchars t ht).1, fun c hc => ((htokchars t ht).2 c hc).2.2⟩)]
  exact filter_strip_id _ (fun t ht =>
    ⟨(htokchars t ht).1, fun c hc => ((htokchars t ht).2 c hc).2.2⟩)

/-- Witness for the amended C8 at a concrete ASCII input containing
punctuation, uppercase and a mention. -/
theorem c8_idempotent_amended_witness :
    (∀ c ∈ ("The cat <@U42> sat!" : String).data, c.toNat < 128) ∧
    hasHttpMatch (joinTokens (preprocess_text "The cat <@U42> sat!")).data = false ∧
    preprocess_text (joinTokens (preprocess_text "The cat <@U42> sat!")) =
      preprocess_text "The cat <@U42> sat!" :=
  ⟨by decide, by decide,
    c8_idempotent_amended "The cat <@U42> sat!" (by decide) (by decide)⟩

end BM25
